import Mathlib

/-!
A shallow embedding, in Lean 4, of the Carbon-Trading-Blockchain contracts
(`CarbonCreditToken.sol`, `CarbonMarketplace.sol`, `CarbonCreditRegistry.sol`).

Modelling conventions:
* Addresses and uint256 values are `Nat` (the spec's data model asks for
  unsigned, unbounded precision); the zero address is `0`.
* Solidity mappings with `Nat` keys are association lists `List (Nat × β)`
  where a missing key reads as a default value, mirroring EVM storage.
* Dense id-indexed mappings (`creditMetadata`, `listings`, `projects`) are
  Lean lists indexed by position; `nextId` is the list length.
* Every external function is a total Lean function returning
  `Except Err σ`: `Except.error e` models a revert, which in the EVM
  discards every state write of the call, so an erroring operation leaves
  the state unchanged by construction (the `run` functions below keep the
  previous state on error).
* `buyCredits` additionally returns the ordered list of its effects, so
  that temporal (ordering) properties of the settlement sequence can be
  stated; the effect list is emitted in the exact source order of the
  statements in `CarbonMarketplace.buyCredits`.
-/

/-- Error taxonomy of the spec: validation, authorization, state,
not-found; the `String` is the revert reason of the `require`. -/
inductive Err where
  | validation (msg : String)
  | authorization (msg : String)
  | state (msg : String)
  | notFound (msg : String)
  deriving DecidableEq, Repr

/-- First-binding lookup in an association list, with default `d`
(mirrors an EVM mapping read). -/
def agetD {β : Type} (m : List (Nat × β)) (a : Nat) (d : β) : β :=
  match m with
  | [] => d
  | (b, w) :: rest => if b = a then w else agetD rest a d

/-- Write `v` at key `a`: replaces the first binding of `a`, or appends a
fresh binding (mirrors an EVM mapping write). -/
def aset {β : Type} (m : List (Nat × β)) (a : Nat) (v : β) : List (Nat × β) :=
  match m with
  | [] => [(a, v)]
  | (b, w) :: rest => if b = a then (a, v) :: rest else (b, w) :: aset rest a v

/-- Balance read: mapping defaults to 0. -/
def getBal (m : List (Nat × Nat)) (a : Nat) : Nat := agetD m a 0

/-- Sum of all stored balance values (the "sum over all principals"). -/
def sumBal (m : List (Nat × Nat)) : Nat := (m.map Prod.snd).sum

/-- ERC20 transfer (OpenZeppelin `_transfer` via `transfer`): requires a
nonzero sender and receiver and a sufficient sender balance; debits the
sender then credits the receiver. -/
def erc20Transfer (bal : List (Nat × Nat)) (src dst amount : Nat) :
    Except Err (List (Nat × Nat)) :=
  if src = 0 then .error (.validation "ERC20InvalidSender")
  else if dst = 0 then .error (.validation "ERC20InvalidReceiver")
  else if getBal bal src < amount then .error (.state "Insufficient balance")
  else
    let bal1 := aset bal src (getBal bal src - amount)
    .ok (aset bal1 dst (getBal bal1 dst + amount))

/-- Structure `CreditMetadata` of `CarbonCreditToken.sol`. -/
structure CreditMetadata where
  projectName : String
  projectType : String
  location : String
  vintage : Nat
  timestamp : Nat
  isRetired : Bool
  retiredBy : Nat
  retiredAt : Nat
  deriving DecidableEq, Repr

/-- State of `CarbonCreditToken` (the Ledger).  `totalMinted` is a ghost
history variable recording the sum of all amounts ever successfully
minted; it is written only by `mintCredits` and read by no operation. -/
structure TokenState where
  balances : List (Nat × Nat)
  credits : List CreditMetadata
  userRetiredCredits : List (Nat × List Nat)
  projectCredits : List (String × Nat)
  totalRetired : Nat
  minters : List Nat
  totalMinted : Nat
  deriving DecidableEq, Repr

/-- Per-project aggregate read (string-keyed mapping). -/
def getProjectCredits (m : List (String × Nat)) (p : String) : Nat :=
  match m with
  | [] => 0
  | (q, w) :: rest => if q = p then w else getProjectCredits rest p

/-- Per-project aggregate write. -/
def setProjectCredits (m : List (String × Nat)) (p : String) (v : Nat) :
    List (String × Nat) :=
  match m with
  | [] => [(p, v)]
  | (q, w) :: rest =>
    if q = p then (p, v) :: rest else (q, w) :: setProjectCredits rest p v

/-- Deployment state of the token: the deployer holds the minter role. -/
def initToken (deployer : Nat) : TokenState :=
  { balances := []
    credits := []
    userRetiredCredits := []
    projectCredits := []
    totalRetired := 0
    minters := [deployer]
    totalMinted := 0 }

/-- Function `mintCredits` of `CarbonCreditToken.sol` (lines 77-109): minter-only;
requires amount>0, nonempty project name, vintage ≤ now; assigns the next
dense credit id, stores metadata with `isRetired := false`, bumps the
per-project aggregate, and mints `amount` to `rcpt`. -/
def mintCredits (s : TokenState) (caller rcpt amount : Nat)
    (projectName projectType location : String) (vintage now : Nat) :
    Except Err (TokenState × Nat) :=
  if caller ∉ s.minters then .error (.authorization "AccessControl: missing MINTER_ROLE")
  else if amount = 0 then .error (.validation "Amount must be greater than 0")
  else if projectName = "" then .error (.validation "Project name required")
  else if now < vintage then .error (.validation "Invalid vintage year")
  else if rcpt = 0 then .error (.validation "ERC20InvalidReceiver")
  else
    let creditId := s.credits.length
    let meta : CreditMetadata :=
      { projectName := projectName
        projectType := projectType
        location := location
        vintage := vintage
        timestamp := now
        isRetired := false
        retiredBy := 0
        retiredAt := 0 }
    .ok ({ s with
            credits := s.credits ++ [meta]
            projectCredits := setProjectCredits s.projectCredits projectName
              (getProjectCredits s.projectCredits projectName + amount)
            balances := aset s.balances rcpt (getBal s.balances rcpt + amount)
            totalMinted := s.totalMinted + amount },
         creditId)

/-- Function `retireCredits` of `CarbonCreditToken.sol` (lines 116-131): requires
caller balance ≥ amount, a valid credit id, and that the credit is not yet
retired; marks it retired, logs it for the caller, adds to `totalRetired`
and burns `amount` from the caller. -/
def retireCredits (s : TokenState) (caller amount creditId now : Nat) :
    Except Err TokenState :=
  if getBal s.balances caller < amount then .error (.state "Insufficient balance")
  else if s.credits.length ≤ creditId then .error (.notFound "Invalid credit ID")
  else
    match s.credits.get? creditId with
    | none => .error (.notFound "Invalid credit ID")
    | some meta =>
      if meta.isRetired then .error (.state "Credits already retired")
      else
        .ok { s with
              credits := s.credits.set creditId
                { meta with isRetired := true, retiredBy := caller, retiredAt := now }
              userRetiredCredits := aset s.userRetiredCredits caller
                (agetD s.userRetiredCredits caller [] ++ [creditId])
              totalRetired := s.totalRetired + amount
              balances := aset s.balances caller (getBal s.balances caller - amount) }

/-- One Ledger operation: mint, retire, or an ERC20 balance transfer. -/
inductive TokenOp where
  | mint (caller rcpt amount : Nat) (projectName projectType location : String)
      (vintage now : Nat)
  | retire (caller amount creditId now : Nat)
  | transfer (caller rcpt amount : Nat)
  deriving DecidableEq, Repr

/-- Step function over `TokenOp`. -/
def tokenStep (s : TokenState) : TokenOp → Except Err TokenState
  | .mint caller rcpt amount pn pt loc vintage now =>
    (mintCredits s caller rcpt amount pn pt loc vintage now).map Prod.fst
  | .retire caller amount creditId now => retireCredits s caller amount creditId now
  | .transfer caller rcpt amount =>
    (erc20Transfer s.balances caller rcpt amount).map (fun b => { s with balances := b })

/-- Run a sequence of operations; a reverting operation keeps the state. -/
def runToken (s : TokenState) : List TokenOp → TokenState
  | [] => s
  | op :: rest =>
    runToken (match tokenStep s op with | .ok s' => s' | .error _ => s) rest

/-- The conservation invariant of the Ledger: the sum of all balances plus
the total retired equals the sum of all amounts ever minted. -/
def Conserved (s : TokenState) : Prop :=
  sumBal s.balances + s.totalRetired = s.totalMinted

/-- The retired flag of credit `i` in state `s` (false for unminted ids). -/
def retiredFlag (s : TokenState) (i : Nat) : Bool :=
  match s.credits.get? i with
  | some m => m.isRetired
  | none => false

/-- A concrete Ledger state with one already-retired credit and a holder
with balance 5, used to witness `retire_at_most_once`. -/
def retiredDemoState : TokenState :=
  { balances := [(2, 5)]
    credits := [{ projectName := "Forest", projectType := "Forestry",
                  location := "X", vintage := 10, timestamp := 11,
                  isRetired := true, retiredBy := 2, retiredAt := 12 }]
    userRetiredCredits := [(2, [0])]
    projectCredits := [("Forest", 6)]
    totalRetired := 1
    minters := [1]
    totalMinted := 6 }

/-- Dense-mapping read with default (a Solidity `mapping(uint => T)` read:
ids beyond `nextId` give the zeroed struct). -/
def listAt {α : Type} (l : List α) (i : Nat) (d : α) : α :=
  match l.get? i with
  | some x => x
  | none => d

/-- The ledger's fixed-point unit scale (`1e18`, the token's 18 decimals). -/
def unitScale : Nat := 10 ^ 18

/-- The marketplace contract's own address (any fixed nonzero principal). -/
def marketAddr : Nat := 1

/-- Structure `Listing` of `CarbonMarketplace.sol`. -/
structure Listing where
  seller : Nat
  amount : Nat
  pricePerCredit : Nat
  isActive : Bool
  createdAt : Nat
  creditId : Nat
  projectName : String
  deriving DecidableEq, Repr

/-- The zeroed listing an unwritten mapping slot reads as. -/
def defaultListing : Listing :=
  { seller := 0, amount := 0, pricePerCredit := 0, isActive := false,
    createdAt := 0, creditId := 0, projectName := "" }

/-- Structure `Trade` of `CarbonMarketplace.sol`. -/
structure Trade where
  listingId : Nat
  buyer : Nat
  seller : Nat
  amount : Nat
  totalPrice : Nat
  timestamp : Nat
  deriving DecidableEq, Repr

/-- State of `CarbonMarketplace` together with the carbon token balances it
trades (`token`; the escrow is the balance of `marketAddr`) and the
external value it holds (`ethBalance`, i.e. `address(this).balance`).
`tradeLog` is the flat append-order log of `userTrades` pushes: the entry
`(u, t)` records trade `t` pushed onto `userTrades[u]`. -/
structure MarketState where
  token : List (Nat × Nat)
  listings : List Listing
  userListings : List (Nat × List Nat)
  tradeLog : List (Nat × Trade)
  platformFee : Nat
  totalVolume : Nat
  totalTrades : Nat
  ethBalance : Nat
  owner : Nat
  deriving DecidableEq, Repr

/-- Price line `totalPrice = (amount * listing.pricePerCredit) / 1e18`
(`CarbonMarketplace.sol` line 138). -/
def totalPriceOf (amount price : Nat) : Nat := amount * price / unitScale

/-- Fee line `fee = (totalPrice * platformFee) / 10000` (line 139). -/
def feeOf (tp feeBps : Nat) : Nat := tp * feeBps / 10000

/-- Proceeds line `sellerAmount = totalPrice - fee` (line 140). -/
def sellerProceedsOf (tp feeBps : Nat) : Nat := tp - feeOf tp feeBps

/-- One observable step of `buyCredits`, in source order.  `valueTransfer`
is an external value send (`.call{value: ...}`); every other constructor
is internal bookkeeping or the closing event. -/
inductive Effect where
  | listingUpdate (id : Nat)
  | creditTransfer (rcpt amount : Nat)
  | valueTransfer (rcpt amount : Nat)
  | tradeRecord (buyer seller : Nat)
  | counterUpdate
  | saleEvent (id : Nat)
  deriving DecidableEq, Repr

/-- Internal bookkeeping effects: the spec's steps (1), (2), (5), (6). -/
def isBookkeeping : Effect → Bool
  | .listingUpdate _ => true
  | .creditTransfer _ _ => true
  | .tradeRecord _ _ => true
  | .counterUpdate => true
  | _ => false

/-- External value transfers: the spec's steps (3) and (4). -/
def isValueTransfer : Effect → Bool
  | .valueTransfer _ _ => true
  | _ => false

/-- Pre-settlement bookkeeping: listing decrement (1) and ledger credit
transfer (2). -/
def isEarlyBookkeeping : Effect → Bool
  | .listingUpdate _ => true
  | .creditTransfer _ _ => true
  | _ => false

/-- Post-settlement bookkeeping: trade append (5) and counters (6). -/
def isLateBookkeeping : Effect → Bool
  | .tradeRecord _ _ => true
  | .counterUpdate => true
  | _ => false

/-- Does every bookkeeping effect in the trace occur before every external
value transfer?  (The property the spec asserts of `buyCredits`.) -/
def bookkeepingBeforeValue : List Effect → Bool
  | [] => true
  | e :: rest =>
    (if isValueTransfer e then rest.all (fun x => !(isBookkeeping x)) else true)
      && bookkeepingBeforeValue rest

/-- Does every step-(1)/(2) bookkeeping effect occur before every external
value transfer? -/
def earlyBeforeValue : List Effect → Bool
  | [] => true
  | e :: rest =>
    (if isValueTransfer e then rest.all (fun x => !(isEarlyBookkeeping x)) else true)
      && earlyBeforeValue rest

/-- Does every external value transfer occur before every step-(5)/(6)
bookkeeping effect? -/
def valueBeforeLate : List Effect → Bool
  | [] => true
  | e :: rest =>
    (if isLateBookkeeping e then rest.all (fun x => !(isValueTransfer x)) else true)
      && valueBeforeLate rest

/-- Total external value paid to principal `a` in a trace. -/
def paidTo (t : List Effect) (a : Nat) : Nat :=
  (t.map (fun e =>
    match e with
    | .valueTransfer rcpt amt => if rcpt = a then amt else 0
    | _ => 0)).sum

/-- Function `buyCredits` of `CarbonMarketplace.sol` (lines 125-191).  Checks:
active listing, amount > 0, amount ≤ remaining, buyer ≠ seller, payment ≥
totalPrice.  Effects in source order: decrement the listing (deactivate at
zero); ERC20-transfer `amount` from the marketplace escrow to the buyer;
send `sellerAmount` external value to the seller; refund `payment -
totalPrice` to the buyer if positive; push the `Trade` onto the buyer's
then the seller's history; add to `totalVolume`; increment `totalTrades`;
emit `ListingSold`.  The returned effect list records that order.  The
marketplace's held external value grows by `payment` at entry and shrinks
by each outgoing send. -/
def buyCredits (s : MarketState) (caller listingId amount payment now : Nat) :
    Except Err (MarketState × List Effect) :=
  let listing := listAt s.listings listingId defaultListing
  if !listing.isActive then .error (.state "Listing not active")
  else if amount = 0 then .error (.validation "Amount must be greater than 0")
  else if listing.amount < amount then .error (.state "Insufficient credits available")
  else if caller = listing.seller then .error (.state "Cannot buy own listing")
  else
    let totalPrice := totalPriceOf amount listing.pricePerCredit
    let fee := feeOf totalPrice s.platformFee
    let sellerAmount := totalPrice - fee
    if payment < totalPrice then .error (.state "Insufficient payment")
    else
      let newRemaining := listing.amount - amount
      let listing' := { listing with
                        amount := newRemaining
                        isActive := if newRemaining = 0 then false else listing.isActive }
      match erc20Transfer s.token marketAddr caller amount with
      | .error e => .error e
      | .ok token' =>
        let refund := payment - totalPrice
        let tr : Trade := { listingId := listingId, buyer := caller,
                            seller := listing.seller, amount := amount,
                            totalPrice := totalPrice, timestamp := now }
        .ok ({ s with
                token := token'
                listings := s.listings.set listingId listing'
                tradeLog := s.tradeLog ++ [(caller, tr), (listing.seller, tr)]
                totalVolume := s.totalVolume + totalPrice
                totalTrades := s.totalTrades + 1
                ethBalance := s.ethBalance + payment - sellerAmount - refund },
             [Effect.listingUpdate listingId,
              Effect.creditTransfer caller amount,
              Effect.valueTransfer listing.seller sellerAmount]
             ++ (if totalPrice < payment then [Effect.valueTransfer caller refund] else [])
             ++ [Effect.tradeRecord caller listing.seller,
                 Effect.counterUpdate,
                 Effect.saleEvent listingId])

/-- Function `cancelListing` of `CarbonMarketplace.sol` (lines 196-213):
seller-only, requires active; deactivates, zeroes the remaining amount and
returns the full remaining escrow to the seller. -/
def cancelListing (s : MarketState) (caller listingId : Nat) :
    Except Err MarketState :=
  let listing := listAt s.listings listingId defaultListing
  if listing.seller ≠ caller then .error (.authorization "Not listing owner")
  else if !listing.isActive then .error (.state "Listing not active")
  else
    match erc20Transfer s.token marketAddr caller listing.amount with
    | .error e => .error e
    | .ok token' =>
      .ok { s with
            token := token'
            listings := s.listings.set listingId
              { listing with isActive := false, amount := 0 } }

/-- Function `updateListingPrice` of `CarbonMarketplace.sol` (lines 218-230):
seller-only, requires active and newPrice > 0; rewrites only the price. -/
def updateListingPrice (s : MarketState) (caller listingId newPrice : Nat) :
    Except Err MarketState :=
  let listing := listAt s.listings listingId defaultListing
  if listing.seller ≠ caller then .error (.authorization "Not listing owner")
  else if !listing.isActive then .error (.state "Listing not active")
  else if newPrice = 0 then .error (.validation "Price must be greater than 0")
  else
    .ok { s with
          listings := s.listings.set listingId
            { listing with pricePerCredit := newPrice } }

/-- Function `withdrawFees` of `CarbonMarketplace.sol` (lines 295-301): owner-only;
requires a nonzero held balance and sends the entire held balance (not a
tracked fee accrual — none exists) to the owner.  Returns the swept
amount. -/
def withdrawFees (s : MarketState) (caller : Nat) :
    Except Err (MarketState × Nat) :=
  if caller ≠ s.owner then .error (.authorization "OwnableUnauthorizedAccount")
  else if s.ethBalance = 0 then .error (.state "No fees to withdraw")
  else .ok ({ s with ethBalance := 0 }, s.ethBalance)

/-- The state and effect trace produced by a successful `buyCredits` call
on listing `L` (the ok-branch of `buyCredits`, spelled out). -/
def buyResult (s : MarketState) (caller listingId amount payment now : Nat)
    (L : Listing) : MarketState × List Effect :=
  let totalPrice := totalPriceOf amount L.pricePerCredit
  let fee := feeOf totalPrice s.platformFee
  let sellerAmount := totalPrice - fee
  let refund := payment - totalPrice
  let newRemaining := L.amount - amount
  let bal1 := aset s.token marketAddr (getBal s.token marketAddr - amount)
  let tr : Trade := { listingId := listingId, buyer := caller,
                      seller := L.seller, amount := amount,
                      totalPrice := totalPrice, timestamp := now }
  ({ s with
      token := aset bal1 caller (getBal bal1 caller + amount)
      listings := s.listings.set listingId
        { L with amount := newRemaining
                 isActive := if newRemaining = 0 then false else L.isActive }
      tradeLog := s.tradeLog ++ [(caller, tr), (L.seller, tr)]
      totalVolume := s.totalVolume + totalPrice
      totalTrades := s.totalTrades + 1
      ethBalance := s.ethBalance + payment - sellerAmount - refund },
   [Effect.listingUpdate listingId,
    Effect.creditTransfer caller amount,
    Effect.valueTransfer L.seller sellerAmount]
   ++ (if totalPrice < payment then [Effect.valueTransfer caller refund] else [])
   ++ [Effect.tradeRecord caller L.seller,
       Effect.counterUpdate,
       Effect.saleEvent listingId])

/-- A listing of 500 credits at 1e18 wei per credit by seller 2. -/
def demoListing : Listing :=
  { seller := 2, amount := 500, pricePerCredit := unitScale, isActive := true,
    createdAt := 0, creditId := 0, projectName := "Forest" }

/-- A marketplace holding 1000 escrowed credits and one active listing. -/
def marketDemo : MarketState :=
  { token := [(marketAddr, 1000)]
    listings := [demoListing]
    userListings := [(2, [0])]
    tradeLog := []
    platformFee := 25
    totalVolume := 0
    totalTrades := 0
    ethBalance := 0
    owner := 9 }

/-- A listing priced far below the 1e18 unit scale (3 wei per credit). -/
def cheapListing : Listing :=
  { seller := 2, amount := 500, pricePerCredit := 3, isActive := true,
    createdAt := 0, creditId := 0, projectName := "Forest" }

/-- State `marketDemo` with the cheap listing instead. -/
def cheapDemo : MarketState := { marketDemo with listings := [cheapListing] }

/-- A second marketplace state for the cancel scenario: seller 2 cancels
their 500-credit listing. -/
def cancelDemo : MarketState := { marketDemo with token := [(marketAddr, 500)] }

/-- Structure `Project` of `CarbonCreditRegistry.sol`. -/
structure Project where
  name : String
  projectType : String
  location : String
  owner : Nat
  registeredAt : Nat
  isVerified : Bool
  isActive : Bool
  totalCreditsIssued : Nat
  metadataURI : String
  deriving DecidableEq, Repr

/-- Structure `Issuer` of `CarbonCreditRegistry.sol`. -/
structure Issuer where
  name : String
  issuerAddress : Nat
  isVerified : Bool
  isActive : Bool
  registeredAt : Nat
  projectsRegistered : Nat
  deriving DecidableEq, Repr

/-- The zeroed project an unwritten mapping slot reads as. -/
def defaultProject : Project :=
  { name := "", projectType := "", location := "", owner := 0,
    registeredAt := 0, isVerified := false, isActive := false,
    totalCreditsIssued := 0, metadataURI := "" }

/-- The zeroed issuer an unwritten mapping slot reads as. -/
def defaultIssuer : Issuer :=
  { name := "", issuerAddress := 0, isVerified := false, isActive := false,
    registeredAt := 0, projectsRegistered := 0 }

/-- State of `CarbonCreditRegistry`. -/
structure RegistryState where
  projects : List Project
  issuers : List (Nat × Issuer)
  registeredIssuers : List Nat
  issuerProjects : List (Nat × List Nat)
  totalProjects : Nat
  totalVerifiedProjects : Nat
  admins : List Nat
  verifiers : List Nat
  deriving DecidableEq, Repr

/-- Function `verifyIssuer` of `CarbonCreditRegistry.sol` (lines 86-95):
verifier-only, requires a registered issuer; sets the verified flag with
no already-verified guard, so a repeat call is a silent no-op. -/
def verifyIssuer (s : RegistryState) (caller addr : Nat) :
    Except Err RegistryState :=
  if caller ∉ s.verifiers then
    .error (.authorization "AccessControl: missing VERIFIER_ROLE")
  else if addr ∉ s.registeredIssuers then .error (.state "Issuer not registered")
  else .ok { s with
             issuers := aset s.issuers addr
               { agetD s.issuers addr defaultIssuer with isVerified := true } }

/-- Function `verifyProject` of `CarbonCreditRegistry.sol` (lines 136-147):
verifier-only, requires a valid id and an unverified project; sets the
verified flag and increments `totalVerifiedProjects`. -/
def verifyProject (s : RegistryState) (caller pid : Nat) :
    Except Err RegistryState :=
  if caller ∉ s.verifiers then
    .error (.authorization "AccessControl: missing VERIFIER_ROLE")
  else if s.projects.length ≤ pid then .error (.notFound "Invalid project ID")
  else if (listAt s.projects pid defaultProject).isVerified then
    .error (.state "Already verified")
  else .ok { s with
             projects := s.projects.set pid
               { listAt s.projects pid defaultProject with isVerified := true }
             totalVerifiedProjects := s.totalVerifiedProjects + 1 }

/-- A registry with one verified project and one verified issuer. -/
def registryDemo : RegistryState :=
  { projects := [{ name := "Forest", projectType := "Forestry", location := "X",
                   owner := 4, registeredAt := 1, isVerified := true,
                   isActive := true, totalCreditsIssued := 0, metadataURI := "u" }]
    issuers := [(4, { name := "Acme", issuerAddress := 4, isVerified := true,
                      isActive := true, registeredAt := 1, projectsRegistered := 1 })]
    registeredIssuers := [4]
    issuerProjects := [(4, [0])]
    totalProjects := 1
    totalVerifiedProjects := 1
    admins := [1]
    verifiers := [1] }

/-- State `marketDemo` holding 42 wei of external value. -/
def feesDemo : MarketState := { marketDemo with ethBalance := 42 }

theorem agetD_aset_self {β : Type} (m : List (Nat × β)) (a : Nat) (v d : β) :
    agetD (aset m a v) a d = v := by
  induction m with
  | nil => simp [aset, agetD]
  | cons hd tl ih =>
    obtain ⟨b, w⟩ := hd
    by_cases hb : b = a <;> simp [aset, agetD, hb, ih]

theorem agetD_aset_ne {β : Type} (m : List (Nat × β)) (a a' : Nat) (v d : β)
    (h : a' ≠ a) : agetD (aset m a v) a' d = agetD m a' d := by
  induction m with
  | nil =>
    simp only [aset, agetD]
    rw [if_neg (Ne.symm h)]
  | cons hd tl ih =>
    obtain ⟨b, w⟩ := hd
    by_cases hb : b = a
    · subst hb
      simp only [aset, if_pos rfl, agetD]
      rw [if_neg (Ne.symm h), if_neg (Ne.symm h)]
    · simp only [aset, if_neg hb]
      by_cases hb' : b = a' <;> simp [agetD, hb', ih]

/-- The key accounting lemma: writing `v` at `a` changes the total by
exactly `v - old`, stated additively to stay in `Nat`. -/
theorem sumBal_aset (m : List (Nat × Nat)) (a v : Nat) :
    sumBal (aset m a v) + getBal m a = sumBal m + v := by
  induction m with
  | nil => simp [aset, sumBal, getBal, agetD]
  | cons hd tl ih =>
    obtain ⟨b, w⟩ := hd
    by_cases hb : b = a
    · subst hb
      simp [aset, sumBal, getBal, agetD]
      omega
    · simp only [aset, if_neg hb, sumBal, List.map_cons, List.sum_cons,
        getBal, agetD, if_neg hb]
      have := ih
      simp only [sumBal, getBal] at this
      omega

theorem mintCredits_conservation {s s' : TokenState}
    {caller rcpt amount vintage now r : Nat} {pn pt loc : String}
    (hI : Conserved s)
    (h : mintCredits s caller rcpt amount pn pt loc vintage now = Except.ok (s', r)) :
    Conserved s' := by
  unfold mintCredits at h
  split at h; · cases h
  split at h; · cases h
  split at h; · cases h
  split at h; · cases h
  split at h; · cases h
  cases h
  unfold Conserved at hI ⊢
  dsimp only
  have hsum := sumBal_aset s.balances rcpt (getBal s.balances rcpt + amount)
  omega

theorem retireCredits_conservation {s s' : TokenState}
    {caller amount creditId now : Nat}
    (hI : Conserved s)
    (h : retireCredits s caller amount creditId now = Except.ok s') :
    Conserved s' := by
  unfold retireCredits at h
  split at h
  · cases h
  next hbal =>
    split at h; · cases h
    split at h
    · cases h
    next meta hmeta =>
      split at h; · cases h
      cases h
      unfold Conserved at hI ⊢
      dsimp only
      have hsum := sumBal_aset s.balances caller (getBal s.balances caller - amount)
      omega

theorem erc20Transfer_sum {bal bal' : List (Nat × Nat)} {src dst amount : Nat}
    (h : erc20Transfer bal src dst amount = Except.ok bal') :
    sumBal bal' = sumBal bal := by
  unfold erc20Transfer at h
  split at h; · cases h
  split at h; · cases h
  split at h; · cases h
  next hbal =>
    cases h
    have h1 := sumBal_aset bal src (getBal bal src - amount)
    have h2 := sumBal_aset (aset bal src (getBal bal src - amount)) dst
      (getBal (aset bal src (getBal bal src - amount)) dst + amount)
    omega

theorem tokenStep_conservation {s s' : TokenState} {op : TokenOp}
    (hI : Conserved s) (h : tokenStep s op = Except.ok s') : Conserved s' := by
  cases op with
  | mint caller rcpt amount pn pt loc vintage now =>
    simp only [tokenStep] at h
    cases hm : mintCredits s caller rcpt amount pn pt loc vintage now with
    | error e => rw [hm] at h; cases h
    | ok p =>
      rw [hm] at h
      obtain ⟨s1, r⟩ := p
      simp only [Except.map] at h
      cases h
      exact mintCredits_conservation hI hm
  | retire caller amount creditId now =>
    exact retireCredits_conservation hI h
  | transfer caller rcpt amount =>
    simp only [tokenStep] at h
    cases hm : erc20Transfer s.balances caller rcpt amount with
    | error e => rw [hm] at h; cases h
    | ok b =>
      rw [hm] at h
      simp only [Except.map] at h
      cases h
      unfold Conserved at hI ⊢
      dsimp only
      rw [erc20Transfer_sum hm]
      exact hI

theorem runToken_conservation (ops : List TokenOp) (s : TokenState)
    (hI : Conserved s) : Conserved (runToken s ops) := by
  induction ops generalizing s with
  | nil => exact hI
  | cons op rest ih =>
    unfold runToken
    cases hstep : tokenStep s op with
    | ok s' => exact ih s' (tokenStep_conservation hI hstep)
    | error e => exact ih s hI

/-- C1: in every state reachable from the deployment state by any sequence
of Ledger operations (mintCredits, retireCredits and ERC20 balance
transfers), the sum over all principals of balances plus `totalRetired`
equals the sum of all amounts ever minted. -/
theorem ledger_conservation (deployer : Nat) (ops : List TokenOp) :
    sumBal (runToken (initToken deployer) ops).balances
      + (runToken (initToken deployer) ops).totalRetired
      = (runToken (initToken deployer) ops).totalMinted :=
  runToken_conservation ops (initToken deployer) rfl

theorem mintCredits_retired_mono {s s' : TokenState}
    {caller rcpt amount vintage now r : Nat} {pn pt loc : String}
    (h : mintCredits s caller rcpt amount pn pt loc vintage now = Except.ok (s', r)) :
    ∀ i, retiredFlag s i = true → retiredFlag s' i = true := by
  unfold mintCredits at h
  split at h; · cases h
  split at h; · cases h
  split at h; · cases h
  split at h; · cases h
  split at h; · cases h
  cases h
  intro i hflag
  unfold retiredFlag at hflag ⊢
  dsimp only
  cases hget : s.credits.get? i with
  | none => rw [hget] at hflag; cases hflag
  | some m =>
    have hi : i < s.credits.length := by
      by_contra hle
      rw [List.get?_eq_none.mpr (Nat.le_of_not_lt hle)] at hget
      cases hget
    rw [List.get?_append hi, hget]
    rw [hget] at hflag
    exact hflag

theorem retireCredits_retired_mono {s s' : TokenState}
    {caller amount creditId now : Nat}
    (h : retireCredits s caller amount creditId now = Except.ok s') :
    ∀ i, retiredFlag s i = true → retiredFlag s' i = true := by
  unfold retireCredits at h
  split at h; · cases h
  split at h; · cases h
  split at h
  · cases h
  next meta hmeta =>
    split at h; · cases h
    cases h
    intro i hflag
    unfold retiredFlag at hflag ⊢
    dsimp only
    by_cases hi : i = creditId
    · subst hi
      have hlt : i < s.credits.length := by
        by_contra hle
        rw [List.get?_eq_none.mpr (Nat.le_of_not_lt hle)] at hmeta
        cases hmeta
      rw [List.get?_set_eq_of_lt _ hlt]
    · rw [List.get?_set_ne _ _ (fun h' => hi h'.symm)]
      exact hflag

/-- C2: the retired flag is monotone — no successful Ledger operation ever
resets a retired credit to unretired — and `retireCredits` on an
already-retired credit id always reverts with a StateError (so the state
is unchanged): with the message `Credits already retired` whenever the
caller's balance covers `amount` (the balance guard runs first), and with
a StateError in every case. -/
theorem retire_at_most_once (s s' : TokenState) :
    (∀ op, tokenStep s op = Except.ok s' →
      ∀ i, retiredFlag s i = true → retiredFlag s' i = true)
    ∧ (∀ caller amount creditId now,
        amount ≤ getBal s.balances caller →
        retiredFlag s creditId = true →
        tokenStep s (TokenOp.retire caller amount creditId now) =
          Except.error (Err.state "Credits already retired"))
    ∧ (∀ caller amount creditId now,
        retiredFlag s creditId = true →
        ∃ msg, tokenStep s (TokenOp.retire caller amount creditId now) =
          Except.error (Err.state msg)) := by
  have halready : ∀ caller amount creditId now,
      amount ≤ getBal s.balances caller →
      retiredFlag s creditId = true →
      tokenStep s (TokenOp.retire caller amount creditId now) =
        Except.error (Err.state "Credits already retired") := by
    intro caller amount creditId now hbal hflag
    have hmeta : ∃ meta, s.credits.get? creditId = some meta ∧ meta.isRetired = true := by
      unfold retiredFlag at hflag
      cases hget : s.credits.get? creditId with
      | none => rw [hget] at hflag; cases hflag
      | some m => rw [hget] at hflag; exact ⟨m, rfl, hflag⟩
    obtain ⟨meta, hget, hret⟩ := hmeta
    have hlt : creditId < s.credits.length := by
      by_contra hle
      rw [List.get?_eq_none.mpr (Nat.le_of_not_lt hle)] at hget
      cases hget
    simp only [tokenStep]
    unfold retireCredits
    rw [if_neg (Nat.not_lt.mpr hbal), if_neg (Nat.not_le.mpr hlt), hget]
    dsimp only
    rw [if_pos hret]
  refine ⟨?_, halready, ?_⟩
  · intro op hstep
    cases op with
    | mint caller rcpt amount pn pt loc vintage now =>
      simp only [tokenStep] at hstep
      cases hm : mintCredits s caller rcpt amount pn pt loc vintage now with
      | error e => rw [hm] at hstep; cases hstep
      | ok p =>
        rw [hm] at hstep
        obtain ⟨s1, r⟩ := p
        simp only [Except.map] at hstep
        cases hstep
        exact mintCredits_retired_mono hm
    | retire caller amount creditId now =>
      exact retireCredits_retired_mono hstep
    | transfer caller rcpt amount =>
      simp only [tokenStep] at hstep
      cases hm : erc20Transfer s.balances caller rcpt amount with
      | error e => rw [hm] at hstep; cases hstep
      | ok b =>
        rw [hm] at hstep
        simp only [Except.map] at hstep
        cases hstep
        intro i hflag
        exact hflag
  · intro caller amount creditId now hflag
    by_cases hbal : getBal s.balances caller < amount
    · refine ⟨"Insufficient balance", ?_⟩
      simp only [tokenStep]
      unfold retireCredits
      rw [if_pos hbal]
    · exact ⟨"Credits already retired",
        halready caller amount creditId now (Nat.not_lt.mp hbal) hflag⟩

theorem retire_at_most_once_witness :
    tokenStep retiredDemoState (TokenOp.retire 2 3 0 20) =
      Except.error (Err.state "Credits already retired")
    ∧ ∃ msg, tokenStep retiredDemoState (TokenOp.retire 5 1 0 20) =
        Except.error (Err.state msg) :=
  ⟨(retire_at_most_once retiredDemoState retiredDemoState).2.1 2 3 0 20
     (by decide) (by rfl),
   (retire_at_most_once retiredDemoState retiredDemoState).2.2 5 1 0 20 (by rfl)⟩

theorem listAt_of_get? {α : Type} {l : List α} {i : Nat} {x : α} (d : α)
    (h : l.get? i = some x) : listAt l i d = x := by
  unfold listAt; rw [h]

theorem listAt_of_le {α : Type} {l : List α} {i : Nat} (d : α)
    (h : l.length ≤ i) : listAt l i d = d := by
  unfold listAt; rw [List.get?_eq_none.mpr h]

theorem listAt_set_self {α : Type} {l : List α} {i : Nat} (x d : α)
    (h : i < l.length) : listAt (l.set i x) i d = x := by
  unfold listAt
  rw [List.get?_set_eq_of_lt _ h]

theorem listAt_set_ne {α : Type} {l : List α} {i j : Nat} (x d : α)
    (h : j ≠ i) : listAt (l.set i x) j d = listAt l j d := by
  unfold listAt
  rw [List.get?_set_ne _ _ (fun h' => h h'.symm)]

/-- C4: with `totalPrice = amount * pricePerUnit / U`, `fee = totalPrice *
feeRateBps / 10000` and `sellerProceeds = totalPrice - fee`, the equation
`fee + sellerProceeds = totalPrice` holds exactly whenever the fee rate is
at most 10000 bps (the contract initialises it to 25 and caps updates at
500), so the divisions create or destroy no value; and the fee is the
rounded-down share, so the division remainder is deterministically left on
the seller's side. -/
theorem fee_plus_proceeds_exact (amount price feeBps : Nat) (h : feeBps ≤ 10000) :
    feeOf (totalPriceOf amount price) feeBps
        + sellerProceedsOf (totalPriceOf amount price) feeBps
      = totalPriceOf amount price
    ∧ 10000 * feeOf (totalPriceOf amount price) feeBps
      ≤ totalPriceOf amount price * feeBps := by
  have hfee : feeOf (totalPriceOf amount price) feeBps ≤ totalPriceOf amount price := by
    unfold feeOf
    have h1 : totalPriceOf amount price * feeBps ≤ totalPriceOf amount price * 10000 :=
      Nat.mul_le_mul_left _ h
    have h2 : totalPriceOf amount price * feeBps / 10000
        ≤ totalPriceOf amount price * 10000 / 10000 := Nat.div_le_div_right h1
    omega
  constructor
  · unfold sellerProceedsOf
    omega
  · unfold feeOf
    have := Nat.div_mul_le_self (totalPriceOf amount price * feeBps) 10000
    omega

theorem fee_plus_proceeds_exact_witness :
    feeOf (totalPriceOf 30000 unitScale) 25
        + sellerProceedsOf (totalPriceOf 30000 unitScale) 25
      = totalPriceOf 30000 unitScale
    ∧ 10000 * feeOf (totalPriceOf 30000 unitScale) 25
      ≤ totalPriceOf 30000 unitScale * 25 :=
  fee_plus_proceeds_exact 30000 unitScale 25 (by decide)

theorem buyCredits_ok_eq (s : MarketState)
    (caller listingId amount payment now : Nat) (L : Listing)
    (hL : listAt s.listings listingId defaultListing = L)
    (hact : L.isActive = true) (hamt : amount ≠ 0) (hrem : amount ≤ L.amount)
    (hown : caller ≠ L.seller) (hc0 : caller ≠ 0)
    (hbal : amount ≤ getBal s.token marketAddr)
    (hpay : totalPriceOf amount L.pricePerCredit ≤ payment) :
    buyCredits s caller listingId amount payment now =
      Except.ok (buyResult s caller listingId amount payment now L) := by
  unfold buyCredits
  rw [hL]
  rw [if_neg (by simp [hact])]
  rw [if_neg hamt]
  rw [if_neg (Nat.not_lt.mpr hrem)]
  rw [if_neg hown]
  rw [if_neg (Nat.not_lt.mpr hpay)]
  have hmz : marketAddr ≠ 0 := by decide
  unfold erc20Transfer
  rw [if_neg hmz, if_neg hc0, if_neg (Nat.not_lt.mpr hbal)]
  rfl

/-- C3 counterexample: buyer 3 buys 2 credits from `marketDemo` for the
exact price (2 wei); the call succeeds, yet its effect trace does NOT put
all internal bookkeeping before the external value transfers — the trade
append and counter updates come after the seller payment. -/
theorem buy_order_counterexample :
    (buyCredits marketDemo 3 0 2 2 7).map
        (fun st => bookkeepingBeforeValue st.2)
      = Except.ok false := by rfl

/-- C3 amended: in every successful `buyCredits` execution, the listing
decrement and the ledger credit transfer to the buyer (steps 1-2) complete
before any external value transfer (3-4) begins, and every external value
transfer completes before the Trade append and the totalVolume/totalTrades
increments (steps 5-6) — not before them, as the spec sentence asserts. -/
theorem buy_order_amended (s : MarketState)
    (caller listingId amount payment now : Nat) (st : MarketState × List Effect)
    (h : buyCredits s caller listingId amount payment now = Except.ok st) :
    earlyBeforeValue st.2 = true ∧ valueBeforeLate st.2 = true := by
  simp only [buyCredits] at h
  split at h; · cases h
  split at h; · cases h
  split at h; · cases h
  split at h; · cases h
  split at h; · cases h
  split at h
  · cases h
  next token' htok =>
    cases h
    by_cases hp : totalPriceOf amount
        (listAt s.listings listingId defaultListing).pricePerCredit < payment
    · rw [if_pos hp]
      exact ⟨rfl, rfl⟩
    · rw [if_neg hp]
      exact ⟨rfl, rfl⟩

theorem buy_order_amended_witness :
    (buyCredits marketDemo 3 0 2 2 7).map
        (fun st => earlyBeforeValue st.2 && valueBeforeLate st.2)
      = Except.ok true := by
  have h := buy_order_amended marketDemo 3 0 2 2 7
    (buyResult marketDemo 3 0 2 2 7 demoListing)
    (buyCredits_ok_eq marketDemo 3 0 2 2 7 demoListing rfl rfl
      (by decide) (by decide) (by decide) (by decide) (by decide) (by decide))
  rw [buyCredits_ok_eq marketDemo 3 0 2 2 7 demoListing rfl rfl
      (by decide) (by decide) (by decide) (by decide) (by decide) (by decide)]
  simp only [Except.map]
  rw [h.1, h.2]
  rfl

/-- C5: on an active listing with 0 < amount ≤ remaining, buyer ≠ seller
(and the escrow able to deliver, buyer a valid ERC20 receiver), the call
fails with `Insufficient payment` if and only if `payment < totalPrice`;
and at `payment = totalPrice` it succeeds with a zero refund (no external
value goes back to the buyer).  A failing call reverts, leaving the state
unchanged by the model's `Except` semantics. -/
theorem buy_payment_boundary (s : MarketState)
    (caller listingId amount payment now : Nat) (L : Listing)
    (hL : listAt s.listings listingId defaultListing = L)
    (hact : L.isActive = true) (hamt : amount ≠ 0) (hrem : amount ≤ L.amount)
    (hown : caller ≠ L.seller) (hc0 : caller ≠ 0)
    (hbal : amount ≤ getBal s.token marketAddr) :
    (buyCredits s caller listingId amount payment now =
        Except.error (Err.state "Insufficient payment")
      ↔ payment < totalPriceOf amount L.pricePerCredit)
    ∧ (payment = totalPriceOf amount L.pricePerCredit →
        buyCredits s caller listingId amount payment now =
          Except.ok (buyResult s caller listingId amount payment now L)
        ∧ paidTo (buyResult s caller listingId amount payment now L).2 caller = 0) := by
  constructor
  · constructor
    · intro herr
      by_contra hge
      rw [buyCredits_ok_eq s caller listingId amount payment now L hL hact hamt
        hrem hown hc0 hbal (Nat.not_lt.mp hge)] at herr
      cases herr
    · intro hlt
      unfold buyCredits
      rw [hL]
      rw [if_neg (by simp [hact]), if_neg hamt, if_neg (Nat.not_lt.mpr hrem),
        if_neg hown, if_pos hlt]
  · intro heq
    refine ⟨buyCredits_ok_eq s caller listingId amount payment now L hL hact hamt
      hrem hown hc0 hbal (le_of_eq heq.symm), ?_⟩
    unfold buyResult paidTo
    dsimp only
    rw [if_neg (by omega : ¬ totalPriceOf amount L.pricePerCredit < payment)]
    simp [Ne.symm hown]

theorem buy_payment_boundary_witness :
    (buyCredits marketDemo 3 0 2 1 7 =
        Except.error (Err.state "Insufficient payment")
      ↔ 1 < totalPriceOf 2 demoListing.pricePerCredit)
    ∧ buyCredits marketDemo 3 0 2 1 7 =
        Except.error (Err.state "Insufficient payment")
    ∧ (buyCredits marketDemo 3 0 2 2 7 =
        Except.ok (buyResult marketDemo 3 0 2 2 7 demoListing)
      ∧ paidTo (buyResult marketDemo 3 0 2 2 7 demoListing).2 3 = 0) :=
  ⟨(buy_payment_boundary marketDemo 3 0 2 1 7 demoListing rfl rfl (by decide)
      (by decide) (by decide) (by decide) (by decide)).1,
   ((buy_payment_boundary marketDemo 3 0 2 1 7 demoListing rfl rfl (by decide)
      (by decide) (by decide) (by decide) (by decide)).1).mpr (by decide),
   (buy_payment_boundary marketDemo 3 0 2 2 7 demoListing rfl rfl (by decide)
      (by decide) (by decide) (by decide) (by decide)).2 (by decide)⟩

/-- C9: when `amount * pricePerUnit < 1e18`, integer division makes
`totalPrice = 0`, so the purchase succeeds with `payment = 0`: the buyer
receives the credits, the seller is sent 0 external value, the fee is 0
(the marketplace's held value is unchanged) and a Trade with
`totalPrice = 0` is appended to the buyer's history. -/
theorem buy_zero_total_price (s : MarketState)
    (caller listingId amount now : Nat) (L : Listing)
    (hL : listAt s.listings listingId defaultListing = L)
    (hact : L.isActive = true) (hamt : amount ≠ 0) (hrem : amount ≤ L.amount)
    (hown : caller ≠ L.seller) (hc0 : caller ≠ 0) (hcm : caller ≠ marketAddr)
    (hbal : amount ≤ getBal s.token marketAddr)
    (hsmall : amount * L.pricePerCredit < unitScale) :
    totalPriceOf amount L.pricePerCredit = 0
    ∧ buyCredits s caller listingId amount 0 now =
        Except.ok (buyResult s caller listingId amount 0 now L)
    ∧ getBal (buyResult s caller listingId amount 0 now L).1.token caller
        = getBal s.token caller + amount
    ∧ paidTo (buyResult s caller listingId amount 0 now L).2 L.seller = 0
    ∧ (buyResult s caller listingId amount 0 now L).1.ethBalance = s.ethBalance
    ∧ (caller, { listingId := listingId, buyer := caller, seller := L.seller,
                 amount := amount, totalPrice := 0, timestamp := now : Trade })
        ∈ (buyResult s caller listingId amount 0 now L).1.tradeLog := by
  have htp : totalPriceOf amount L.pricePerCredit = 0 := by
    unfold totalPriceOf
    exact Nat.div_eq_of_lt hsmall
  refine ⟨htp, buyCredits_ok_eq s caller listingId amount 0 now L hL hact hamt
    hrem hown hc0 hbal (by omega), ?_, ?_, ?_, ?_⟩
  · unfold buyResult
    dsimp only
    unfold getBal
    rw [agetD_aset_self]
    rw [agetD_aset_ne _ _ _ _ _ hcm]
  · unfold buyResult paidTo
    dsimp only
    rw [htp]
    rw [if_neg (by omega : ¬ (0 < 0))]
    simp [feeOf]
  · unfold buyResult
    dsimp only
    rw [htp]
    simp [feeOf]
  · unfold buyResult
    dsimp only
    rw [htp]
    simp

theorem buy_zero_total_price_witness :
    totalPriceOf 2 cheapListing.pricePerCredit = 0
    ∧ buyCredits cheapDemo 3 0 2 0 7 =
        Except.ok (buyResult cheapDemo 3 0 2 0 7 cheapListing)
    ∧ getBal (buyResult cheapDemo 3 0 2 0 7 cheapListing).1.token 3
        = getBal cheapDemo.token 3 + 2
    ∧ paidTo (buyResult cheapDemo 3 0 2 0 7 cheapListing).2 cheapListing.seller = 0
    ∧ (buyResult cheapDemo 3 0 2 0 7 cheapListing).1.ethBalance = cheapDemo.ethBalance
    ∧ ((3 : Nat), { listingId := 0, buyer := 3, seller := cheapListing.seller,
                    amount := 2, totalPrice := 0, timestamp := 7 : Trade })
        ∈ (buyResult cheapDemo 3 0 2 0 7 cheapListing).1.tradeLog :=
  buy_zero_total_price cheapDemo 3 0 2 7 cheapListing rfl rfl (by decide)
    (by decide) (by decide) (by decide) (by decide) (by decide) (by decide)

/-- C6: on an active listing with remaining `r > 0`, `cancelListing` by the
seller returns exactly `r` escrowed credits to the seller's ledger balance
and makes the listing permanently inactive with zero remaining; a second
cancel fails with the StateError `Listing not active`, and a cancel by any
other principal fails (reverting, hence with no state change) with
`Not listing owner`. -/
theorem cancel_listing_spec (s : MarketState) (caller listingId : Nat)
    (L : Listing)
    (hL : listAt s.listings listingId defaultListing = L)
    (hsell : L.seller = caller) (hact : L.isActive = true) (hr : 0 < L.amount)
    (hc0 : caller ≠ 0) (hcm : caller ≠ marketAddr)
    (hbal : L.amount ≤ getBal s.token marketAddr) :
    (∃ s', cancelListing s caller listingId = Except.ok s'
      ∧ getBal s'.token caller = getBal s.token caller + L.amount
      ∧ listAt s'.listings listingId defaultListing =
          { L with isActive := false, amount := 0 }
      ∧ cancelListing s' caller listingId =
          Except.error (Err.state "Listing not active"))
    ∧ (∀ other, other ≠ caller →
        cancelListing s other listingId =
          Except.error (Err.authorization "Not listing owner")) := by
  have hlen : listingId < s.listings.length := by
    by_contra hle
    rw [listAt_of_le _ (Nat.le_of_not_lt hle)] at hL
    rw [← hL] at hact
    cases hact
  have hmz : marketAddr ≠ 0 := by decide
  constructor
  · have hok : cancelListing s caller listingId =
        Except.ok { s with
          token := aset
            (aset s.token marketAddr (getBal s.token marketAddr - L.amount))
            caller
            (getBal (aset s.token marketAddr
              (getBal s.token marketAddr - L.amount)) caller + L.amount)
          listings := s.listings.set listingId
            { L with isActive := false, amount := 0 } } := by
      unfold cancelListing
      rw [hL]
      rw [if_neg (fun hne => hne hsell), if_neg (by simp [hact])]
      unfold erc20Transfer
      rw [if_neg hmz, if_neg hc0, if_neg (Nat.not_lt.mpr hbal)]
    refine ⟨_, hok, ?_, ?_, ?_⟩
    · dsimp only
      unfold getBal
      rw [agetD_aset_self]
      rw [agetD_aset_ne _ _ _ _ _ hcm]
    · dsimp only
      rw [listAt_set_self _ _ hlen]
    · dsimp only
      unfold cancelListing
      rw [listAt_set_self _ _ hlen]
      rw [if_neg (fun hne => hne hsell)]
      rfl
  · intro other hother
    have hne : L.seller ≠ other := by
      rw [hsell]
      exact Ne.symm hother
    unfold cancelListing
    rw [hL, if_pos hne]

theorem cancel_listing_spec_witness :
    (∃ s', cancelListing cancelDemo 2 0 = Except.ok s'
      ∧ getBal s'.token 2 = getBal cancelDemo.token 2 + demoListing.amount
      ∧ listAt s'.listings 0 defaultListing =
          { demoListing with isActive := false, amount := 0 }
      ∧ cancelListing s' 2 0 = Except.error (Err.state "Listing not active"))
    ∧ (∀ other, other ≠ 2 →
        cancelListing cancelDemo other 0 =
          Except.error (Err.authorization "Not listing owner")) :=
  cancel_listing_spec cancelDemo 2 0 demoListing rfl rfl rfl (by decide)
    (by decide) (by decide) (by decide)

/-- C8: `updateListingPrice` by the seller on an active listing with
`newPrice > 0` rewrites only that listing's price-per-unit: its remaining
amount, active flag and every other field are kept, every other listing is
untouched, and the token balances (hence the escrow), held value, trade
log and counters are unchanged.  A non-seller caller, an inactive listing,
or `newPrice = 0` make it revert (no state change) with the matching
error. -/
theorem update_price_frame (s : MarketState) (caller listingId newPrice : Nat)
    (L : Listing)
    (hL : listAt s.listings listingId defaultListing = L)
    (hsell : L.seller = caller) (hact : L.isActive = true) (hp : newPrice ≠ 0) :
    (∃ s', updateListingPrice s caller listingId newPrice = Except.ok s'
      ∧ listAt s'.listings listingId defaultListing =
          { L with pricePerCredit := newPrice }
      ∧ (∀ j, j ≠ listingId →
          listAt s'.listings j defaultListing = listAt s.listings j defaultListing)
      ∧ s'.token = s.token ∧ s'.ethBalance = s.ethBalance
      ∧ s'.tradeLog = s.tradeLog ∧ s'.userListings = s.userListings
      ∧ s'.totalVolume = s.totalVolume ∧ s'.totalTrades = s.totalTrades
      ∧ s'.platformFee = s.platformFee ∧ s'.owner = s.owner)
    ∧ (∀ other, other ≠ caller →
        updateListingPrice s other listingId newPrice =
          Except.error (Err.authorization "Not listing owner"))
    ∧ updateListingPrice s caller listingId 0 =
        Except.error (Err.validation "Price must be greater than 0")
    ∧ (∀ s2 L2, listAt s2.listings listingId defaultListing = L2 →
        L2.seller = caller → L2.isActive = false →
        updateListingPrice s2 caller listingId newPrice =
          Except.error (Err.state "Listing not active")) := by
  have hlen : listingId < s.listings.length := by
    by_contra hle
    rw [listAt_of_le _ (Nat.le_of_not_lt hle)] at hL
    rw [← hL] at hact
    cases hact
  refine ⟨?_, ?_, ?_, ?_⟩
  · have hok : updateListingPrice s caller listingId newPrice =
        Except.ok { s with
          listings := s.listings.set listingId
            { L with pricePerCredit := newPrice } } := by
      unfold updateListingPrice
      rw [hL]
      rw [if_neg (fun hne => hne hsell), if_neg (by simp [hact]), if_neg hp]
    refine ⟨_, hok, ?_, ?_, rfl, rfl, rfl, rfl, rfl, rfl, rfl, rfl⟩
    · dsimp only
      rw [listAt_set_self _ _ hlen]
    · intro j hj
      dsimp only
      rw [listAt_set_ne _ _ hj]
  · intro other hother
    have hne : L.seller ≠ other := by
      rw [hsell]
      exact Ne.symm hother
    unfold updateListingPrice
    rw [hL, if_pos hne]
  · unfold updateListingPrice
    rw [hL]
    rw [if_neg (fun hne => hne hsell), if_neg (by simp [hact]),
      if_pos rfl]
  · intro s2 L2 hL2 hsell2 hact2
    unfold updateListingPrice
    rw [hL2]
    rw [if_neg (fun hne => hne hsell2)]
    rw [if_pos (by simp [hact2])]

theorem update_price_frame_witness :
    (∃ s', updateListingPrice marketDemo 2 0 77 = Except.ok s'
      ∧ listAt s'.listings 0 defaultListing =
          { demoListing with pricePerCredit := 77 }
      ∧ (∀ j, j ≠ 0 →
          listAt s'.listings j defaultListing =
            listAt marketDemo.listings j defaultListing)
      ∧ s'.token = marketDemo.token ∧ s'.ethBalance = marketDemo.ethBalance
      ∧ s'.tradeLog = marketDemo.tradeLog
      ∧ s'.userListings = marketDemo.userListings
      ∧ s'.totalVolume = marketDemo.totalVolume
      ∧ s'.totalTrades = marketDemo.totalTrades
      ∧ s'.platformFee = marketDemo.platformFee ∧ s'.owner = marketDemo.owner)
    ∧ (∀ other, other ≠ 2 →
        updateListingPrice marketDemo other 0 77 =
          Except.error (Err.authorization "Not listing owner"))
    ∧ updateListingPrice marketDemo 2 0 0 =
        Except.error (Err.validation "Price must be greater than 0")
    ∧ (∀ s2 L2, listAt s2.listings 0 defaultListing = L2 →
        L2.seller = 2 → L2.isActive = false →
        updateListingPrice s2 2 0 77 =
          Except.error (Err.state "Listing not active")) :=
  update_price_frame marketDemo 2 0 77 demoListing rfl rfl rfl (by decide)

theorem aset_agetD_self {β : Type} (m : List (Nat × β)) (a : Nat) (d : β) :
    agetD m a d = d ∨ aset m a (agetD m a d) = m := by
  induction m with
  | nil => exact Or.inl rfl
  | cons hd tl ih =>
    obtain ⟨b, w⟩ := hd
    by_cases hb : b = a
    · subst hb
      right
      simp [aset, agetD]
    · cases ih with
      | inl h =>
        left
        simp [agetD, hb, h]
      | inr h =>
        right
        simp [aset, agetD, hb, h]

/-- C7: verifying an already-verified project reverts with
`Already verified` (so `totalVerifiedProjects` is never double-incremented
for one project), while verifying an already-verified registered issuer
succeeds and returns the state entirely unchanged — the documented
asymmetry between the two verification paths. -/
theorem verify_idempotence (s : RegistryState) (caller pid addr : Nat) :
    (caller ∈ s.verifiers → pid < s.projects.length →
      (listAt s.projects pid defaultProject).isVerified = true →
      verifyProject s caller pid = Except.error (Err.state "Already verified"))
    ∧ (caller ∈ s.verifiers → addr ∈ s.registeredIssuers →
        (agetD s.issuers addr defaultIssuer).isVerified = true →
        verifyIssuer s caller addr = Except.ok s) := by
  constructor
  · intro hrole hpid hver
    unfold verifyProject
    rw [if_neg (by simp [hrole]), if_neg (Nat.not_le.mpr hpid), if_pos hver]
  · intro hrole hreg hver
    unfold verifyIssuer
    rw [if_neg (by simp [hrole]), if_neg (by simp [hreg])]
    have hne : agetD s.issuers addr defaultIssuer ≠ defaultIssuer := by
      intro hd
      rw [hd] at hver
      cases hver
    have hup : { agetD s.issuers addr defaultIssuer with isVerified := true }
        = agetD s.issuers addr defaultIssuer := by
      cases hag : agetD s.issuers addr defaultIssuer with
      | mk n ia iv iact ra pr =>
        rw [hag] at hver
        dsimp only at hver
        rw [hver]
    rw [hup]
    cases aset_agetD_self s.issuers addr defaultIssuer with
    | inl h => exact absurd h hne
    | inr h => rw [h]

theorem verify_idempotence_witness :
    verifyProject registryDemo 1 0 = Except.error (Err.state "Already verified")
    ∧ verifyIssuer registryDemo 1 4 = Except.ok registryDemo :=
  ⟨(verify_idempotence registryDemo 1 0 4).1 (by decide) (by decide) rfl,
   (verify_idempotence registryDemo 1 0 4).2 (by decide) (by decide) rfl⟩

/-- C10: `withdrawFees` is owner-only; called by the owner it fails if and
only if the held external-value balance is zero, and otherwise sweeps the
entire held balance to the owner — the contract keeps no separate
accrued-fee counter, so the swept amount is the whole balance (escrowed
value included), not only the fees accrued from sales. -/
theorem withdraw_fees_spec (s : MarketState) (caller : Nat) :
    (caller ≠ s.owner →
      withdrawFees s caller =
        Except.error (Err.authorization "OwnableUnauthorizedAccount"))
    ∧ (caller = s.owner →
        ((withdrawFees s caller = Except.error (Err.state "No fees to withdraw"))
            ↔ s.ethBalance = 0)
        ∧ (s.ethBalance ≠ 0 →
            withdrawFees s caller =
              Except.ok ({ s with ethBalance := 0 }, s.ethBalance))) := by
  constructor
  · intro hne
    unfold withdrawFees
    rw [if_pos hne]
  · intro heq
    constructor
    · constructor
      · intro herr
        by_contra hnz
        unfold withdrawFees at herr
        rw [if_neg (fun h => h heq), if_neg hnz] at herr
        cases herr
      · intro hz
        unfold withdrawFees
        rw [if_neg (fun h => h heq), if_pos hz]
    · intro hnz
      unfold withdrawFees
      rw [if_neg (fun h => h heq), if_neg hnz]

theorem withdraw_fees_spec_witness :
    withdrawFees feesDemo 3 =
        Except.error (Err.authorization "OwnableUnauthorizedAccount")
    ∧ ((withdrawFees feesDemo 9 = Except.error (Err.state "No fees to withdraw"))
        ↔ feesDemo.ethBalance = 0)
    ∧ withdrawFees feesDemo 9 =
        Except.ok ({ feesDemo with ethBalance := 0 }, feesDemo.ethBalance) :=
  ⟨(withdraw_fees_spec feesDemo 3).1 (by decide),
   ((withdraw_fees_spec feesDemo 9).2 rfl).1,
   ((withdraw_fees_spec feesDemo 9).2 rfl).2 (by decide)⟩
